import Mathlib

/-!
Verification of gscache core components against a shallow embedding.

The embedding translates the Go sources into pure Lean functions:
byte strings become lists of naturals below 256, Go strings and file
paths become lists of characters (the sources only manipulate ASCII
paths and keys), the file system becomes an association list from
path to contents, machine integers become Nat or Int with explicit
reduction modulo powers of two where Go overflow matters, and fallible
operations return Except. Remote-bucket and disk IO outcomes that are
external to the verified logic are supplied as explicit environment
values, so every definition is executable.
-/

deriving instance DecidableEq for Except

namespace GsCache

/-- Little-endian encoding of the low 32 bits of a natural number as 4 bytes.
Models binary.LittleEndian.PutUint32 from entrymeta.go. -/
def u32le (n : Nat) : List Nat :=
  [n % 256, n / 256 % 256, n / 65536 % 256, n / 16777216 % 256]

/-- Little-endian encoding of the low 64 bits of a natural number as 8 bytes.
Models binary.LittleEndian.PutUint64 from entrymeta.go. -/
def u64le (n : Nat) : List Nat :=
  [n % 256, n / 256 % 256, n / 65536 % 256, n / 16777216 % 256,
   n / 4294967296 % 256, n / 1099511627776 % 256,
   n / 281474976710656 % 256, n / 72057594037927936 % 256]

/-- Little-endian decoding of a byte list into a natural number.
Models binary.LittleEndian.Uint32 and Uint64 from entrymeta.go. -/
def leNat : List Nat → Nat
  | [] => 0
  | b :: rest => b + 256 * leNat rest

/-- Reinterpretation of an unsigned 64-bit value as a signed int64,
as in the Go conversions int64(binary.LittleEndian.Uint64(...)). -/
def toInt64 (n : Nat) : Int :=
  if n % 2 ^ 64 < 2 ^ 63 then ((n % 2 ^ 64 : Nat) : Int)
  else ((n % 2 ^ 64 : Nat) : Int) - 2 ^ 64

/-- Encoding of a signed integer as 8 little-endian bytes of its value
modulo 2 to the 64, as in binary.LittleEndian.PutUint64 over uint64(i). -/
def i64le (i : Int) : List Nat := u64le (i % 2 ^ 64).toNat

theorem u32le_length (n : Nat) : (u32le n).length = 4 := rfl

theorem u64le_length (n : Nat) : (u64le n).length = 8 := rfl

theorem i64le_length (i : Int) : (i64le i).length = 8 := rfl

theorem leNat_u32le (n : Nat) : leNat (u32le n) = n % 2 ^ 32 := by
  simp only [u32le, leNat]
  omega

theorem leNat_u64le (n : Nat) : leNat (u64le n) = n % 2 ^ 64 := by
  simp only [u64le, leNat]
  omega

theorem u32le_lt (n : Nat) : ∀ b ∈ u32le n, b < 256 := by
  simp only [u32le, List.mem_cons, List.not_mem_nil, or_false]
  rintro b (rfl | rfl | rfl | rfl) <;> omega

theorem leNat_i64le (i : Int) : leNat (i64le i) = ((i % 2 ^ 64).toNat) % 2 ^ 64 := by
  simp [i64le, leNat_u64le]

theorem toInt64_i64 (i : Int) (h1 : -(2 ^ 63) ≤ i) (h2 : i < 2 ^ 63) :
    toInt64 (i % 2 ^ 64).toNat = i := by
  unfold toInt64
  have hmod : (0 : Int) ≤ i % 2 ^ 64 := Int.emod_nonneg i (by norm_num)
  have hlt : i % 2 ^ 64 < 2 ^ 64 := Int.emod_lt_of_pos i (by norm_num)
  rcases le_or_lt 0 i with hpos | hneg
  · have : i % 2 ^ 64 = i := Int.emod_eq_of_lt hpos (by omega)
    have ht : ((i % 2 ^ 64).toNat : Int) = i := by omega
    have ht2 : (i % 2 ^ 64).toNat % 2 ^ 64 = (i % 2 ^ 64).toNat := by omega
    rw [ht2]
    simp only [ht]
    omega
  · have : i % 2 ^ 64 = i + 2 ^ 64 := by
      have : (i + 2 ^ 64) % 2 ^ 64 = i % 2 ^ 64 := by omega
      omega
    have ht : ((i % 2 ^ 64).toNat : Int) = i + 2 ^ 64 := by omega
    have ht2 : (i % 2 ^ 64).toNat % 2 ^ 64 = (i % 2 ^ 64).toNat := by omega
    rw [ht2]
    simp only [ht]
    omega

/-- Hexadecimal digit characters, lowercase, as produced by fmt %x. -/
def hexDigitChar (n : Nat) : Char :=
  match n with
  | 0 => '0' | 1 => '1' | 2 => '2' | 3 => '3' | 4 => '4'
  | 5 => '5' | 6 => '6' | 7 => '7' | 8 => '8' | 9 => '9'
  | 10 => 'a' | 11 => 'b' | 12 => 'c' | 13 => 'd' | 14 => 'e'
  | _ => 'f'

/-- Two lowercase hex digits of one byte: models fmt.Sprintf with %02x
applied to a byte value. -/
def hexByte (b : Nat) : List Char := [hexDigitChar (b / 16 % 16), hexDigitChar (b % 16)]

/-- Lowercase hex of a byte slice (two digits per byte): models
fmt.Sprintf with %x applied to a byte slice. -/
def hexBytes (bs : List Nat) : List Char := (bs.map hexByte).flatten

/-- Model of Go time.Time as the code uses it: either the zero value or
the instant time.Unix(0, n) for a nanosecond count n. The wall-or-monotonic
internals of time.Time are irrelevant to the serialized form, which only
keeps UnixNano. -/
inductive GoTime where
  | zero : GoTime
  | unix (nanos : Int) : GoTime
deriving DecidableEq

/-- The int64 produced by calling UnixNano on the given time. For the zero
value this is the overflowed constant -62135596800 * 1000000000 wrapped to
int64, the value Go returns for (time.Time-zero).UnixNano(). For
time.Unix(0, n) with an int64 n it is n itself. -/
def zeroTimeUnixNano : Int := toInt64 ((-62135596800 * 1000000000 : Int) % 2 ^ 64).toNat

/-- Models the Time.UnixNano call in EntryMeta.WriteTo. -/
def GoTime.toUnixNano : GoTime → Int
  | .zero => zeroTimeUnixNano
  | .unix n => toInt64 ((n % 2 ^ 64).toNat)

/-- Entry metadata, from internal/cache/entrymeta.go. ActionID and OutputID
are byte slices, Size an int64, Time a Go time value. -/
structure EntryMeta where
  ActionID : List Nat
  OutputID : List Nat
  Size : Int
  Time : GoTime
deriving DecidableEq

/-- Models EntryMeta.SerializedSize. -/
def EntryMeta.SerializedSize (em : EntryMeta) : Nat :=
  4 + 4 + em.ActionID.length + em.OutputID.length + 8 + 8

/-- Models EntryMeta.WriteTo: the exact byte sequence written, laid out as
ActionID length (u32), OutputID length (u32), ActionID, OutputID,
Size (u64 of the int64), Time unix nanoseconds (u64 of the int64). -/
def EntryMeta.writeBytes (em : EntryMeta) : List Nat :=
  u32le em.ActionID.length ++ u32le em.OutputID.length ++
    em.ActionID ++ em.OutputID ++ i64le em.Size ++ i64le em.Time.toUnixNano

/-- Models ReadEntryMeta: consumes the serialized header from the front of
the byte stream and returns the parsed EntryMeta together with the remaining
bytes. The two error branches model the two io.ReadFull failures. A
nanosecond value equal to the zero-value representation is mapped back to
the zero time, any other value to time.Unix(0, value). -/
def readEntryMeta (s : List Nat) : Except Unit (EntryMeta × List Nat) :=
  if s.length < 8 then .error ()
  else
    let actionIDLen := leNat (s.take 4)
    let outputIDLen := leNat ((s.drop 4).take 4)
    let rest := s.drop 8
    if rest.length < actionIDLen + outputIDLen + 16 then .error ()
    else
      let remainingBuf := rest.take (actionIDLen + outputIDLen + 16)
      let actionID := remainingBuf.take actionIDLen
      let outputID := (remainingBuf.drop actionIDLen).take outputIDLen
      let size := toInt64 (leNat ((remainingBuf.drop (actionIDLen + outputIDLen)).take 8))
      let timeNano := toInt64 (leNat ((remainingBuf.drop (actionIDLen + outputIDLen + 8)).take 8))
      let t := if timeNano = zeroTimeUnixNano then GoTime.zero else GoTime.unix timeNano
      .ok (⟨actionID, outputID, size, t⟩, rest.drop (actionIDLen + outputIDLen + 16))

theorem toInt64_bounds (n : Nat) : -(2 ^ 63) ≤ toInt64 n ∧ toInt64 n < 2 ^ 63 := by
  unfold toInt64
  split <;> omega

theorem toInt64_leNat_i64le (i : Int) (h1 : -(2 ^ 63) ≤ i) (h2 : i < 2 ^ 63) :
    toInt64 (leNat (i64le i)) = i := by
  rw [leNat_i64le]
  have hmod : (0 : Int) ≤ i % 2 ^ 64 := Int.emod_nonneg i (by norm_num)
  have hlt : i % 2 ^ 64 < 2 ^ 64 := Int.emod_lt_of_pos i (by norm_num)
  have hsmall : (i % 2 ^ 64).toNat % 2 ^ 64 = (i % 2 ^ 64).toNat := by omega
  rw [hsmall]
  exact toInt64_i64 i h1 h2

/-- Side conditions under which an EntryMeta value is representable in Go:
Size is an int64, and the time is either the zero value or an instant with
an int64 nanosecond representation that differs from the representation of
the zero value (the deserializer maps that representation back to the zero
value, so an instant colliding with it cannot round-trip). -/
def goTimeValid : GoTime → Prop
  | .zero => True
  | .unix n => -(2 ^ 63) ≤ n ∧ n < 2 ^ 63 ∧ n ≠ zeroTimeUnixNano

theorem goTime_toUnixNano_valid (t : GoTime) (h : goTimeValid t) :
    toInt64 (leNat (i64le t.toUnixNano)) = t.toUnixNano ∧
      (t.toUnixNano = zeroTimeUnixNano ↔ t = GoTime.zero) := by
  cases t with
  | zero =>
    constructor
    · apply toInt64_leNat_i64le
      · exact (toInt64_bounds ((-62135596800 * 1000000000 : Int) % 2 ^ 64).toNat).1
      · exact (toInt64_bounds ((-62135596800 * 1000000000 : Int) % 2 ^ 64).toNat).2
    · simp [GoTime.toUnixNano]
  | unix n =>
    obtain ⟨h1, h2, h3⟩ := h
    have he : (GoTime.unix n).toUnixNano = n := toInt64_i64 n h1 h2
    rw [he]
    refine ⟨toInt64_leNat_i64le n h1 h2, ?_⟩
    simp [h3]

theorem readEntryMeta_chunks (A O T1 T2 extra : List Nat)
    (hA : A.length < 2 ^ 32) (hO : O.length < 2 ^ 32)
    (hT1 : T1.length = 8) (hT2 : T2.length = 8) :
    readEntryMeta (u32le A.length ++ (u32le O.length ++ (A ++ (O ++ (T1 ++ (T2 ++ extra)))))) =
      .ok (⟨A, O, toInt64 (leNat T1),
            if toInt64 (leNat T2) = zeroTimeUnixNano then GoTime.zero
            else GoTime.unix (toInt64 (leNat T2))⟩, extra) := by
  have h4 : (u32le A.length).length = 4 := rfl
  have h4b : (u32le O.length).length = 4 := rfl
  have htake4 : (u32le A.length ++ (u32le O.length ++ (A ++ (O ++ (T1 ++ (T2 ++ extra)))))).take 4
      = u32le A.length := List.take_left' h4
  have hdrop4 : (u32le A.length ++ (u32le O.length ++ (A ++ (O ++ (T1 ++ (T2 ++ extra)))))).drop 4
      = u32le O.length ++ (A ++ (O ++ (T1 ++ (T2 ++ extra)))) := List.drop_left' h4
  have hdrop8 : (u32le A.length ++ (u32le O.length ++ (A ++ (O ++ (T1 ++ (T2 ++ extra)))))).drop 8
      = A ++ (O ++ (T1 ++ (T2 ++ extra))) := by
    have h44 : (8 : Nat) = 4 + 4 := rfl
    rw [h44, ← List.drop_drop, hdrop4, List.drop_left' h4b]
  have hassoc : A ++ (O ++ (T1 ++ (T2 ++ extra)))
      = (A ++ (O ++ (T1 ++ T2))) ++ extra := by simp [List.append_assoc]
  have hplen : (A ++ (O ++ (T1 ++ T2))).length = A.length + O.length + 16 := by
    simp [hT1, hT2]; omega
  have htakebuf : (A ++ (O ++ (T1 ++ (T2 ++ extra)))).take (A.length + O.length + 16)
      = A ++ (O ++ (T1 ++ T2)) := by
    rw [hassoc]; exact List.take_left' hplen
  have hdropbuf : (A ++ (O ++ (T1 ++ (T2 ++ extra)))).drop (A.length + O.length + 16)
      = extra := by
    rw [hassoc]; exact List.drop_left' hplen
  have hbufA : (A ++ (O ++ (T1 ++ T2))).take A.length = A := List.take_left' rfl
  have hbufO : ((A ++ (O ++ (T1 ++ T2))).drop A.length).take O.length = O := by
    rw [List.drop_left' rfl]; exact List.take_left' rfl
  have hbufT1 : ((A ++ (O ++ (T1 ++ T2))).drop (A.length + O.length)).take 8 = T1 := by
    have hx : A ++ (O ++ (T1 ++ T2)) = (A ++ O) ++ (T1 ++ T2) := by simp [List.append_assoc]
    rw [hx, List.drop_left' (by simp)]
    exact List.take_left' hT1
  have hbufT2 : ((A ++ (O ++ (T1 ++ T2))).drop (A.length + O.length + 8)).take 8 = T2 := by
    have hx : A ++ (O ++ (T1 ++ T2)) = ((A ++ O) ++ T1) ++ T2 := by simp [List.append_assoc]
    rw [hx, List.drop_left' (by simp [hT1]; omega), ← hT2]
    exact List.take_length T2
  unfold readEntryMeta
  rw [if_neg (by simp [hT1, hT2]; omega)]
  simp only [htake4, hdrop4, hdrop8, leNat_u32le, Nat.mod_eq_of_lt hA, Nat.mod_eq_of_lt hO,
    List.take_left' h4b]
  rw [if_neg (by simp [hT1, hT2]; omega)]
  simp only [htakebuf, hdropbuf, hbufA, hbufO, hbufT1, hbufT2]

/-- C3 (amended). For every EntryMeta whose ActionID and OutputID lengths fit
the u32 length fields, whose Size is an int64, and whose Time is either the
zero value or an instant with an int64 nanosecond count different from the
representation of the zero value, deserializing the serialization yields the
value back component-wise (with any trailing stream left over), the
zero-value timestamp round-trips to the zero value, and serialization
writes exactly SerializedSize bytes. The claim as frozen, which allows any
Time, fails at the one instant whose nanosecond count collides with the
zero-value representation; see the counterexample. -/
theorem entrymeta_roundtrip_c3 (em : EntryMeta) (extra : List Nat)
    (ha : em.ActionID.length < 2 ^ 32) (ho : em.OutputID.length < 2 ^ 32)
    (hs1 : -(2 ^ 63) ≤ em.Size) (hs2 : em.Size < 2 ^ 63)
    (ht : goTimeValid em.Time) :
    readEntryMeta (em.writeBytes ++ extra) = .ok (em, extra) ∧
      em.writeBytes.length = em.SerializedSize := by
  obtain ⟨A, O, sz, t⟩ := em
  constructor
  · have hw : (⟨A, O, sz, t⟩ : EntryMeta).writeBytes ++ extra
        = u32le A.length ++ (u32le O.length ++
            (A ++ (O ++ (i64le sz ++ (i64le (GoTime.toUnixNano t) ++ extra))))) := by
      simp [EntryMeta.writeBytes, List.append_assoc]
    rw [hw, readEntryMeta_chunks A O _ _ extra ha ho (i64le_length _) (i64le_length _)]
    obtain ⟨hdec, hiff⟩ := goTime_toUnixNano_valid t ht
    rw [toInt64_leNat_i64le sz hs1 hs2, hdec]
    cases t with
    | zero => simp [GoTime.toUnixNano]
    | unix n =>
      obtain ⟨h1, h2, h3⟩ := ht
      have he : (GoTime.unix n).toUnixNano = n := toInt64_i64 n h1 h2
      rw [he, if_neg h3]
  · simp [EntryMeta.writeBytes, EntryMeta.SerializedSize, u32le_length, i64le_length,
      List.length_append]
    omega

/-- C3 counterexample. The instant time.Unix(0, z) with z the int64
representation of the zero-value timestamp serializes to the same bytes as
the zero value and therefore deserializes to the zero value, not to itself:
the frozen claim, which asserts the round-trip for any Time, is false at
this input. -/
theorem entrymeta_roundtrip_c3_counterexample :
    readEntryMeta ((⟨[], [], 0, GoTime.unix zeroTimeUnixNano⟩ : EntryMeta).writeBytes)
        = .ok (⟨[], [], 0, GoTime.zero⟩, []) ∧
      (⟨[], [], 0, GoTime.unix zeroTimeUnixNano⟩ : EntryMeta) ≠ ⟨[], [], 0, GoTime.zero⟩ := by
  constructor
  · rfl
  · decide

/-- C3 witness: the amended round-trip at a concrete EntryMeta. -/
theorem entrymeta_roundtrip_c3_witness :
    readEntryMeta ((⟨[1, 2], [3], 5, GoTime.unix 1000⟩ : EntryMeta).writeBytes ++ [9])
        = .ok (⟨[1, 2], [3], 5, GoTime.unix 1000⟩, [9]) ∧
      (⟨[1, 2], [3], 5, GoTime.unix 1000⟩ : EntryMeta).writeBytes.length
        = (⟨[1, 2], [3], 5, GoTime.unix 1000⟩ : EntryMeta).SerializedSize :=
  entrymeta_roundtrip_c3 ⟨[1, 2], [3], 5, GoTime.unix 1000⟩ [9] (by decide) (by decide)
    (by decide) (by decide) ⟨by decide, by decide, by decide⟩

/-- File-system paths, modeled as character lists (the sources only build
ASCII paths, so Go strings and byte strings coincide with these). -/
abbrev Path := List Char

/-- The file system, modeled as an association list from path to byte
contents; later writes are inserted at the front and shadow earlier ones. -/
abbrev FS := List (Path × List Nat)

def fsLookup (fs : FS) (p : Path) : Option (List Nat) :=
  match fs.find? (fun e => e.1 = p) with
  | some e => some e.2
  | none => none

/-- Models creating or truncating a file and writing contents to it. -/
def fsWrite (fs : FS) (p : Path) (data : List Nat) : FS := (p, data) :: fs

def fsRemove (fs : FS) (p : Path) : FS := fs.filter (fun e => !(e.1 = p : Bool))

/-- Models os.Rename: the contents move from the old path to the new one. -/
def fsRename (fs : FS) (old new : Path) : FS :=
  match fsLookup fs old with
  | some d => fsWrite (fsRemove fs old) new d
  | none => fs

/-- Models LocalBackend.actionPath: dir is the data directory of the store,
the shard directory is the first ActionID byte in two lowercase hex digits,
and the file name is the full ActionID in hex. The Go code indexes byte 0
and is only called with non-empty IDs; headD 0 stands in for that index. -/
def localActionPath (dir : Path) (actionID : List Nat) : Path :=
  dir ++ '/' :: hexByte (actionID.headD 0) ++ '/' :: hexBytes actionID ++ ".action".data

/-- Models LocalBackend.outputPath: identical layout, but derived from the
OutputID, not from the ActionID. -/
def localOutputPath (dir : Path) (outputID : List Nat) : Path :=
  dir ++ '/' :: hexByte (outputID.headD 0) ++ '/' :: hexBytes outputID ++ ".output".data

/-- Models the path of the shared zero-length output file. -/
def localEmptyOutputPath (dir : Path) : Path := dir ++ "/_empty.output".data

/-- Models LocalBackend.EnsureEmptyOutputFile: keep an existing zero-length
file, otherwise write a fresh empty one. -/
def ensureEmptyOutputFile (dir : Path) (fs : FS) : Path × FS :=
  let p := localEmptyOutputPath dir
  match fsLookup fs p with
  | some [] => (p, fs)
  | _ => (p, fsWrite fs p [])

/-- A put request, from internal/protocol: ActionID, OutputID and the
declared body size. -/
structure PutRequest where
  ActionID : List Nat
  OutputID : List Nat
  BodySize : Int
deriving DecidableEq

inductive PutErr where
  | sizeMismatch
deriving DecidableEq

/-- Models the action-file block at the end of LocalBackend.put: write the
serialized EntryMeta to a uniquely-suffixed temp file and rename it into
place. -/
def localPutActionFile (aPath : Path) (meta : EntryMeta) (uniqueId : Path) (fs : FS) : FS :=
  let aTmp := aPath ++ ".tmp.".data ++ uniqueId
  fsRename (fsWrite fs aTmp meta.writeBytes) aTmp aPath

/-- Models LocalBackend.put over the FS model. body is the byte sequence the
body reader yields before reporting end of stream, now the current time,
uniqueId the random suffix. File-system primitives themselves are modeled as
succeeding; the put-specific size check is the faithful part. On a body
count different from BodySize the code returns the size-mismatch error after
the temp file has been written and performs no further file operation. -/
def localPut (dir : Path) (req : PutRequest) (body : List Nat)
    (overrideTime : Option GoTime) (now : GoTime) (uniqueId : Path) (fs : FS) :
    Except PutErr Path × FS :=
  let aPath := localActionPath dir req.ActionID
  let metaTime := match overrideTime with | some t => t | none => now
  let meta : EntryMeta := ⟨req.ActionID, req.OutputID, req.BodySize, metaTime⟩
  if 0 < req.BodySize then
    let oPath := localOutputPath dir req.OutputID
    let oTmp := oPath ++ ".tmp.".data ++ uniqueId
    let fs1 := fsWrite fs oTmp body
    if (body.length : Int) ≠ req.BodySize then (.error .sizeMismatch, fs1)
    else (.ok oPath, localPutActionFile aPath meta uniqueId (fsRename fs1 oTmp oPath))
  else
    let pfs := ensureEmptyOutputFile dir fs
    (.ok pfs.1, localPutActionFile aPath meta uniqueId pfs.2)

theorem fsLookup_fsWrite_eq (fs : FS) (p : Path) (data : List Nat) :
    fsLookup (fsWrite fs p data) p = some data := by
  simp [fsLookup, fsWrite, List.find?_cons]

theorem fsLookup_fsWrite_ne (fs : FS) (p q : Path) (data : List Nat) (h : q ≠ p) :
    fsLookup (fsWrite fs q data) p = fsLookup fs p := by
  simp [fsLookup, fsWrite, List.find?_cons, h]

theorem fsLookup_cons (e : Path × List Nat) (rest : FS) (p : Path) :
    fsLookup (e :: rest) p = if e.1 = p then some e.2 else fsLookup rest p := by
  by_cases he : e.1 = p <;> simp [fsLookup, List.find?_cons, he]

theorem fsLookup_fsRemove_ne (fs : FS) (p q : Path) (h : q ≠ p) :
    fsLookup (fsRemove fs q) p = fsLookup fs p := by
  induction fs with
  | nil => rfl
  | cons e rest ih =>
    by_cases he : e.1 = q
    · have hep : ¬ e.1 = p := by rw [he]; exact h
      simp [fsRemove, List.filter_cons, he, fsLookup_cons, hep, h] at *
      exact ih
    · simp [fsRemove, List.filter_cons, he, fsLookup_cons] at *
      by_cases hep : e.1 = p
      · simp [hep]
      · simp [hep]
        exact ih

theorem fsRename_after_write (fs : FS) (tmp dst : Path) (d : List Nat) :
    fsRename (fsWrite fs tmp d) tmp dst = fsWrite (fsRemove (fsWrite fs tmp d) tmp) dst d := by
  simp [fsRename, fsLookup_fsWrite_eq]

/-- Appending the temp suffix always changes a path (the result is strictly
longer). -/
theorem path_ne_tmp (p u : Path) : p ≠ p ++ ".tmp.".data ++ u := by
  intro h
  have hl := congrArg List.length h
  have h5 : (".tmp.".data).length = 5 := rfl
  simp only [List.length_append, h5] at hl
  omega

/-- A path ending in .action never equals a path ending in .output. -/
theorem action_ne_output (x y : Path) : x ++ ".action".data ≠ y ++ ".output".data := by
  intro h
  have e1 : (x ++ ".action".data).reverse.head? = some 'n' := by
    rw [List.reverse_append]; rfl
  have e2 : (y ++ ".output".data).reverse.head? = some 't' := by
    rw [List.reverse_append]; rfl
  rw [h, e2] at e1
  exact absurd e1 (by decide)

theorem hexDigitChar_ne_dot (n : Nat) : hexDigitChar n ≠ '.' := by
  unfold hexDigitChar
  split <;> decide

theorem hexByte_dot_count (b : Nat) : (hexByte b).count '.' = 0 := by
  simp [hexByte, List.count_cons, hexDigitChar_ne_dot]

theorem hexBytes_dot_count (bs : List Nat) : (hexBytes bs).count '.' = 0 := by
  induction bs with
  | nil => rfl
  | cons b rest ih =>
    simp [hexBytes, List.count_append] at *
    constructor
    · have := hexByte_dot_count b
      simpa [hexByte, List.count_cons] using this
    · exact ih

/-- The dot count separates the final output path from the temp action
path: the former has one dot past the data directory, the latter at least
three. -/
theorem outputPath_ne_actionTmp (dir : Path) (o a : List Nat) (u : Path) :
    localOutputPath dir o ≠ localActionPath dir a ++ ".tmp.".data ++ u := by
  intro h
  have hc := congrArg (List.count '.') h
  have c1 : (".output".data).count '.' = 1 := rfl
  have c2 : (".action".data).count '.' = 1 := rfl
  have c3 : (".tmp.".data).count '.' = 2 := rfl
  simp only [localOutputPath, localActionPath, List.count_append, List.count_cons,
    hexBytes_dot_count, c1, c2, c3] at hc
  have hb1 := hexByte_dot_count (o.headD 0)
  have hb2 := hexByte_dot_count (a.headD 0)
  simp only [hb1, hb2] at hc
  simp at hc
  omega

/-- The action path never equals the uniquely-suffixed output temp path:
past the data directory the former holds one dot, the latter at least
three. -/
theorem actionPath_ne_outputTmp (dir : Path) (a o : List Nat) (u : Path) :
    localActionPath dir a ≠ localOutputPath dir o ++ ".tmp.".data ++ u := by
  intro h
  have hc := congrArg (List.count '.') h
  have c1 : (".output".data).count '.' = 1 := rfl
  have c2 : (".action".data).count '.' = 1 := rfl
  have c3 : (".tmp.".data).count '.' = 2 := rfl
  simp only [localOutputPath, localActionPath, List.count_append, List.count_cons,
    hexBytes_dot_count, c1, c2, c3] at hc
  have hb1 := hexByte_dot_count (o.headD 0)
  have hb2 := hexByte_dot_count (a.headD 0)
  simp only [hb1, hb2] at hc
  simp at hc
  omega

/-- C4 (amended). A local put whose declared BodySize is positive and whose
body reader yields a different byte count fails synchronously with the
size-mismatch error; the only path the file system changed at is the
uniquely-suffixed output temp path, so the final action and output paths
are untouched; the partially-written temp file is abandoned, never renamed
into place, but it is NOT deleted from the file system, which is the one
divergence from the frozen claim (see the counterexample). -/
theorem localput_sizemismatch_c4 (dir : Path) (req : PutRequest) (body : List Nat)
    (overrideTime : Option GoTime) (now : GoTime) (uniqueId : Path) (fs : FS)
    (hbs : 0 < req.BodySize) (hne : (body.length : Int) ≠ req.BodySize) :
    localPut dir req body overrideTime now uniqueId fs =
      (.error .sizeMismatch,
        fsWrite fs (localOutputPath dir req.OutputID ++ ".tmp.".data ++ uniqueId) body) ∧
    (∀ p, p ≠ localOutputPath dir req.OutputID ++ ".tmp.".data ++ uniqueId →
      fsLookup (localPut dir req body overrideTime now uniqueId fs).2 p = fsLookup fs p) ∧
    fsLookup (localPut dir req body overrideTime now uniqueId fs).2
        (localOutputPath dir req.OutputID) = fsLookup fs (localOutputPath dir req.OutputID) ∧
    fsLookup (localPut dir req body overrideTime now uniqueId fs).2
        (localActionPath dir req.ActionID) = fsLookup fs (localActionPath dir req.ActionID) := by
  have hres : localPut dir req body overrideTime now uniqueId fs =
      (.error .sizeMismatch,
        fsWrite fs (localOutputPath dir req.OutputID ++ ".tmp.".data ++ uniqueId) body) := by
    simp only [localPut]
    rw [if_pos hbs, if_pos hne]
  refine ⟨hres, ?_, ?_, ?_⟩
  · intro p hp
    rw [hres]
    exact fsLookup_fsWrite_ne fs p _ body (Ne.symm hp)
  · rw [hres]
    exact fsLookup_fsWrite_ne fs _ _ body (Ne.symm (path_ne_tmp _ uniqueId))
  · rw [hres]
    exact fsLookup_fsWrite_ne fs _ _ body
      (Ne.symm (actionPath_ne_outputTmp dir req.ActionID req.OutputID uniqueId))

/-- C4 counterexample. At a concrete mismatching put the operation fails
with size-mismatch, yet the partially-written temp file is still present in
the resulting file system: the frozen claim states it is discarded. -/
theorem localput_sizemismatch_c4_counterexample :
    (localPut "d".data ⟨[1], [2], 2⟩ [7, 7, 7] none GoTime.zero "u".data []).1
        = .error .sizeMismatch ∧
      fsLookup (localPut "d".data ⟨[1], [2], 2⟩ [7, 7, 7] none GoTime.zero "u".data []).2
          ("d/02/02.output.tmp.u".data) = some [7, 7, 7] :=
  ⟨rfl, rfl⟩

/-- C4 witness: the amended statement at a concrete mismatching put. -/
theorem localput_sizemismatch_c4_witness :
    localPut "e".data ⟨[1], [2], 3⟩ [7] none GoTime.zero "w".data [] =
      (.error .sizeMismatch,
        fsWrite [] (localOutputPath "e".data [2] ++ ".tmp.".data ++ "w".data) [7]) ∧
    fsLookup (localPut "e".data ⟨[1], [2], 3⟩ [7] none GoTime.zero "w".data []).2
        (localOutputPath "e".data [2]) = fsLookup ([] : FS) (localOutputPath "e".data [2]) :=
  ⟨(localput_sizemismatch_c4 "e".data ⟨[1], [2], 3⟩ [7] none GoTime.zero "w".data []
      (by decide) (by decide)).1,
   (localput_sizemismatch_c4 "e".data ⟨[1], [2], 3⟩ [7] none GoTime.zero "w".data []
      (by decide) (by decide)).2.2.1⟩

/-- C8 (amended). A successful local put with positive BodySize stores the
serialized EntryMeta at the action path and the body at the output path,
where the action path shard directory and hex stem are derived from the
ActionID but the output path shard directory and hex stem are derived from
the OutputID; the two files share a shard directory and stem only when the
two IDs coincide, against the frozen claim that both always mirror the
ActionID (see the counterexample). -/
theorem localput_layout_c8 (dir : Path) (req : PutRequest) (body : List Nat)
    (overrideTime : Option GoTime) (now : GoTime) (uniqueId : Path) (fs : FS)
    (hbs : 0 < req.BodySize) (heq : (body.length : Int) = req.BodySize) :
    (localPut dir req body overrideTime now uniqueId fs).1
        = .ok (localOutputPath dir req.OutputID) ∧
    fsLookup (localPut dir req body overrideTime now uniqueId fs).2
        (localActionPath dir req.ActionID)
        = some (EntryMeta.writeBytes ⟨req.ActionID, req.OutputID, req.BodySize,
            match overrideTime with | some t => t | none => now⟩) ∧
    fsLookup (localPut dir req body overrideTime now uniqueId fs).2
        (localOutputPath dir req.OutputID) = some body ∧
    localActionPath dir req.ActionID
        = dir ++ '/' :: hexByte (req.ActionID.headD 0)
            ++ '/' :: hexBytes req.ActionID ++ ".action".data ∧
    localOutputPath dir req.OutputID
        = dir ++ '/' :: hexByte (req.OutputID.headD 0)
            ++ '/' :: hexBytes req.OutputID ++ ".output".data := by
  have hres : localPut dir req body overrideTime now uniqueId fs =
      (.ok (localOutputPath dir req.OutputID),
        localPutActionFile (localActionPath dir req.ActionID)
          ⟨req.ActionID, req.OutputID, req.BodySize,
            match overrideTime with | some t => t | none => now⟩ uniqueId
          (fsRename (fsWrite fs (localOutputPath dir req.OutputID ++ ".tmp.".data ++ uniqueId)
              body)
            (localOutputPath dir req.OutputID ++ ".tmp.".data ++ uniqueId)
            (localOutputPath dir req.OutputID))) := by
    simp only [localPut]
    rw [if_pos hbs, if_neg (by simp [heq])]
  have hao : localOutputPath dir req.OutputID ≠ localActionPath dir req.ActionID := by
    have h1 : localActionPath dir req.ActionID
        = (dir ++ '/' :: hexByte (req.ActionID.headD 0) ++ '/' :: hexBytes req.ActionID)
            ++ ".action".data := by
      simp [localActionPath, List.append_assoc]
    have h2 : localOutputPath dir req.OutputID
        = (dir ++ '/' :: hexByte (req.OutputID.headD 0) ++ '/' :: hexBytes req.OutputID)
            ++ ".output".data := by
      simp [localOutputPath, List.append_assoc]
    rw [h1, h2]
    exact fun h => action_ne_output _ _ h.symm
  refine ⟨by rw [hres], ?_, ?_, by simp [localActionPath, List.append_assoc],
    by simp [localOutputPath, List.append_assoc]⟩
  · rw [hres]
    simp only [localPutActionFile, fsRename_after_write]
    exact fsLookup_fsWrite_eq _ _ _
  · rw [hres]
    simp only [localPutActionFile, fsRename_after_write]
    rw [fsLookup_fsWrite_ne _ _ _ _ (Ne.symm hao)]
    rw [fsLookup_fsRemove_ne _ _ _
      (Ne.symm (outputPath_ne_actionTmp dir req.OutputID req.ActionID uniqueId))]
    rw [fsLookup_fsWrite_ne _ _ _ _
      (fun h => outputPath_ne_actionTmp dir req.OutputID req.ActionID uniqueId h.symm)]
    exact fsLookup_fsWrite_eq _ _ _

/-- C8 counterexample. A successful put with ActionID 0x01 and OutputID 0x02
stores the body at data/02/02.output, not next to the action file at
data/01/01.action: there is no output file under the ActionID shard and
stem, so the frozen claim that both files share the ActionID-derived shard
directory and stem is false. -/
theorem localput_layout_c8_counterexample :
    (localPut "data".data ⟨[1], [2], 2⟩ [7, 8] none GoTime.zero "u".data []).1
        = .ok ("data/02/02.output".data) ∧
    fsLookup (localPut "data".data ⟨[1], [2], 2⟩ [7, 8] none GoTime.zero "u".data []).2
        ("data/02/02.output".data) = some [7, 8] ∧
    fsLookup (localPut "data".data ⟨[1], [2], 2⟩ [7, 8] none GoTime.zero "u".data []).2
        ("data/01/01.output".data) = none ∧
    fsLookup (localPut "data".data ⟨[1], [2], 2⟩ [7, 8] none GoTime.zero "u".data []).2
        ("data/01/01.action".data)
        = some (EntryMeta.writeBytes ⟨[1], [2], 2, GoTime.zero⟩) :=
  ⟨rfl, rfl, rfl, rfl⟩

/-- C8 witness: the amended layout statement at a concrete successful put. -/
theorem localput_layout_c8_witness :
    (localPut "w".data ⟨[1], [2], 2⟩ [7, 8] none GoTime.zero "u".data []).1
        = .ok (localOutputPath "w".data [2]) ∧
    fsLookup (localPut "w".data ⟨[1], [2], 2⟩ [7, 8] none GoTime.zero "u".data []).2
        (localActionPath "w".data [1])
        = some (EntryMeta.writeBytes ⟨[1], [2], 2, GoTime.zero⟩) ∧
    fsLookup (localPut "w".data ⟨[1], [2], 2⟩ [7, 8] none GoTime.zero "u".data []).2
        (localOutputPath "w".data [2]) = some [7, 8] ∧
    localActionPath "w".data [1]
        = "w".data ++ '/' :: hexByte (([1] : List Nat).headD 0)
            ++ '/' :: hexBytes [1] ++ ".action".data ∧
    localOutputPath "w".data [2]
        = "w".data ++ '/' :: hexByte (([2] : List Nat).headD 0)
            ++ '/' :: hexBytes [2] ++ ".output".data :=
  localput_layout_c8 "w".data ⟨[1], [2], 2⟩ [7, 8] none GoTime.zero "u".data []
    (by decide) (by decide)

/-- A get response, from internal/protocol. -/
structure GetResponseM where
  Miss : Bool
  OutputID : List Nat
  Size : Int
  Time : Option GoTime
  DiskPath : Path
deriving DecidableEq

/-- The all-default miss response the Go code builds as GetResponse with
only Miss set. -/
def missResponse : GetResponseM := ⟨true, [], 0, none, []⟩

/-- Errors that can arise inside BlobBackend.get; their precise identity is
irrelevant, only that the public Get maps all of them to a miss. -/
inductive GErr where
  | backendClosed
  | emptyActionID
  | ensureEmptyFailed
  | diskGetFailed
  | arOpenFailed
  | diskPutFailed
  | remoteReadFailed
  | metaReadFailed
  | actionIDMismatch
deriving DecidableEq

/-- Outcome of bucket.NewReader on the standalone object key: the not-found
code, another failure, or the full object byte stream. -/
inductive RemoteRead where
  | notFound
  | failed
  | ok (content : List Nat)
deriving DecidableEq

/-- One call to diskStore.Put as issued by BlobBackend.get, recording the
request fields, the override time, and the streamed body bytes. -/
structure DiskPutCall where
  ActionID : List Nat
  OutputID : List Nat
  BodySize : Int
  overrideTime : GoTime
  body : List Nat
deriving DecidableEq

/-- Environment for one BlobBackend.get call: the ActionID of the request,
the result of archiveStore.GetBlob (an ArEntry embeds an EntryMeta), the
bytes of the archive entry body, and the outcomes of the disk-store and
remote-bucket operations the code may perform. The disk-store results are
oracles because their own behavior is verified separately on the local
backend model. -/
structure BlobGetEnv where
  reqActionID : List Nat
  arEntry : Option EntryMeta
  arBody : List Nat
  arOpenOk : Bool
  ensureEmptyResult : Except Unit Path
  diskGetResult : Except Unit GetResponseM
  diskPutArResult : Except Unit Path
  remote : RemoteRead
  diskPutRemoteResult : Except Unit Path
deriving DecidableEq

/-- Models the remote-download tail of BlobBackend.get: open the standalone
object, return a miss on not-found, parse the EntryMeta from the stream
head, reject an ActionID mismatch, and stream the remaining bytes into the
local cache with the meta time as override. -/
def blobGetRemote (env : BlobGetEnv) : Except GErr GetResponseM × List DiskPutCall :=
  match env.remote with
  | .notFound => (.ok missResponse, [])
  | .failed => (.error .remoteReadFailed, [])
  | .ok content =>
    match readEntryMeta content with
    | .error _ => (.error .metaReadFailed, [])
    | .ok (meta, body) =>
      if meta.ActionID ≠ env.reqActionID then (.error .actionIDMismatch, [])
      else
        match env.diskPutRemoteResult with
        | .error _ =>
          (.error .diskPutFailed, [⟨meta.ActionID, meta.OutputID, meta.Size, meta.Time, body⟩])
        | .ok p =>
          (.ok ⟨false, meta.OutputID, meta.Size, some meta.Time, p⟩,
            [⟨meta.ActionID, meta.OutputID, meta.Size, meta.Time, body⟩])

/-- Models the archive slow path of BlobBackend.get: open the bundle entry
and write its body through the local cache with the entry time as
override. -/
def blobGetArSlow (env : BlobGetEnv) (e : EntryMeta) :
    Except GErr GetResponseM × List DiskPutCall :=
  if env.arOpenOk = false then (.error .arOpenFailed, [])
  else
    match env.diskPutArResult with
    | .error _ => (.error .diskPutFailed, [⟨e.ActionID, e.OutputID, e.Size, e.Time, env.arBody⟩])
    | .ok p =>
      (.ok ⟨false, e.OutputID, e.Size, some e.Time, p⟩,
        [⟨e.ActionID, e.OutputID, e.Size, e.Time, env.arBody⟩])

/-- Models BlobBackend.get after the archive fast path: consult the local
disk store, return its hit, otherwise fall through to the archive slow path
when the bundle holds the entry, and to the remote download otherwise. -/
def blobGetAfterFast (env : BlobGetEnv) : Except GErr GetResponseM × List DiskPutCall :=
  match env.diskGetResult with
  | .error _ => (.error .diskGetFailed, [])
  | .ok diskResp =>
    if diskResp.Miss = false then (.ok diskResp, [])
    else
      match env.arEntry with
      | some e => blobGetArSlow env e
      | none => blobGetRemote env

/-- Models the private BlobBackend.get: reject an empty ActionID, serve
empty entries from the archive fast path using the shared empty-output file
and no cache write, then fall through the tiers. -/
def blobGetInner (env : BlobGetEnv) : Except GErr GetResponseM × List DiskPutCall :=
  if env.reqActionID = [] then (.error .emptyActionID, [])
  else
    match env.arEntry with
    | some e =>
      if e.Size = 0 then
        match env.ensureEmptyResult with
        | .error _ => (.error .ensureEmptyFailed, [])
        | .ok p => (.ok ⟨false, e.OutputID, e.Size, some e.Time, p⟩, [])
      else blobGetAfterFast env
    | none => blobGetAfterFast env

/-- Models the public BlobBackend.Get: reject when closed, otherwise run the
private get (single-flighted in Go, transparent for one call) and convert
any internal error into a plain miss response with no error. -/
def blobBackendGet (closed : Bool) (env : BlobGetEnv) : Except GErr GetResponseM :=
  if closed = true then .error .backendClosed
  else
    match (blobGetInner env).1 with
    | .error _ => .ok missResponse
    | .ok r => .ok r

/-- C1. On an open blob backend the public Get never returns an error: it
always produces a response, and whenever the internal resolution fails with
any error the response is the plain miss. -/
theorem blobget_miss_on_error_c1 (env : BlobGetEnv) :
    (∃ r, blobBackendGet false env = .ok r) ∧
    (∀ e, (blobGetInner env).1 = .error e → blobBackendGet false env = .ok missResponse) := by
  unfold blobBackendGet
  constructor
  · cases h : (blobGetInner env).1 with
    | error e => exact ⟨missResponse, by simp [h]⟩
    | ok r => exact ⟨r, by simp [h]⟩
  · intro e he
    simp [he]

/-- C1 witness: a concrete environment in which the internal get fails (the
request ActionID is empty) and the public Get returns the plain miss. -/
theorem blobget_miss_on_error_c1_witness :
    blobBackendGet false ⟨[], none, [], true, .ok [], .ok missResponse, .ok [],
        .notFound, .ok []⟩ = .ok missResponse :=
  (blobget_miss_on_error_c1 ⟨[], none, [], true, .ok [], .ok missResponse, .ok [],
      .notFound, .ok []⟩).2 .emptyActionID (by rfl)

/-- C2. Resolution order of BlobBackend.get, for any request with a
non-empty ActionID. First, a bundle entry of size zero produces a hit on
the shared empty-output path with no cache write. Second, when the fast
path does not apply, a non-miss disk result is returned as is with no cache
write. Third, a disk miss with a non-empty bundle entry materializes the
entry through one local put whose override time is the entry meta time and
returns a hit on the resulting path. Fourth, with no bundle entry the
remote object is consulted: not-found yields a miss; otherwise the
EntryMeta is parsed from the stream head, a mismatching meta ActionID
fails the resolution, and on a match the remaining bytes are streamed
through one local put with the meta time as override, yielding a hit on
the resulting path. -/
theorem blobget_resolution_c2 (env : BlobGetEnv) (hreq : env.reqActionID ≠ []) :
    (∀ e p, env.arEntry = some e → e.Size = 0 → env.ensureEmptyResult = .ok p →
      blobGetInner env = (.ok ⟨false, e.OutputID, e.Size, some e.Time, p⟩, [])) ∧
    (∀ r, (env.arEntry = none ∨ ∃ e, env.arEntry = some e ∧ e.Size ≠ 0) →
      env.diskGetResult = .ok r → r.Miss = false →
      blobGetInner env = (.ok r, [])) ∧
    (∀ e r p, env.arEntry = some e → e.Size ≠ 0 → env.diskGetResult = .ok r →
      r.Miss = true → env.arOpenOk = true → env.diskPutArResult = .ok p →
      blobGetInner env =
        (.ok ⟨false, e.OutputID, e.Size, some e.Time, p⟩,
          [⟨e.ActionID, e.OutputID, e.Size, e.Time, env.arBody⟩])) ∧
    (∀ r, env.arEntry = none → env.diskGetResult = .ok r → r.Miss = true →
      (env.remote = .notFound → blobGetInner env = (.ok missResponse, [])) ∧
      (∀ content meta body p, env.remote = .ok content →
        readEntryMeta content = .ok (meta, body) → meta.ActionID = env.reqActionID →
        env.diskPutRemoteResult = .ok p →
        blobGetInner env =
          (.ok ⟨false, meta.OutputID, meta.Size, some meta.Time, p⟩,
            [⟨meta.ActionID, meta.OutputID, meta.Size, meta.Time, body⟩])) ∧
      (∀ content meta body, env.remote = .ok content →
        readEntryMeta content = .ok (meta, body) → meta.ActionID ≠ env.reqActionID →
        (blobGetInner env).1 = .error .actionIDMismatch)) := by
  refine ⟨?_, ?_, ?_, ?_⟩
  · intro e p har hsz hemp
    simp [blobGetInner, hreq, har, hsz, hemp]
  · intro r har hdisk hmiss
    rcases har with hnone | ⟨e, hsome, hsz⟩
    · simp [blobGetInner, blobGetAfterFast, hreq, hnone, hdisk, hmiss]
    · simp [blobGetInner, blobGetAfterFast, hreq, hsome, hsz, hdisk, hmiss]
  · intro e r p har hsz hdisk hmiss hopen hput
    simp [blobGetInner, blobGetAfterFast, blobGetArSlow, hreq, har, hsz, hdisk, hmiss,
      hopen, hput]
  · intro r hnone hdisk hmiss
    refine ⟨?_, ?_, ?_⟩
    · intro hrem
      simp [blobGetInner, blobGetAfterFast, blobGetRemote, hreq, hnone, hdisk, hmiss, hrem]
    · intro content meta body p hrem hmeta hmatch hput
      simp [blobGetInner, blobGetAfterFast, blobGetRemote, hreq, hnone, hdisk, hmiss, hrem,
        hmeta, hmatch, hput]
    · intro content meta body hrem hmeta hmatch
      simp [blobGetInner, blobGetAfterFast, blobGetRemote, hreq, hnone, hdisk, hmiss, hrem,
        hmeta, hmatch]

/-- C2 witness: the remote-download tier at a concrete environment, with a
concrete serialized object whose head parses back to the EntryMeta and whose
tail is streamed into the local cache with the meta time as override. -/
theorem blobget_resolution_c2_witness :
    blobGetInner ⟨[171], none, [], true, .ok [], .ok missResponse, .ok [],
        .ok ((⟨[171], [16], 3, GoTime.unix 7⟩ : EntryMeta).writeBytes ++ [1, 2, 3]),
        .ok "p".data⟩ =
      (.ok ⟨false, [16], 3, some (GoTime.unix 7), "p".data⟩,
        [⟨[171], [16], 3, GoTime.unix 7, [1, 2, 3]⟩]) :=
  ((blobget_resolution_c2 ⟨[171], none, [], true, .ok [], .ok missResponse, .ok [],
        .ok ((⟨[171], [16], 3, GoTime.unix 7⟩ : EntryMeta).writeBytes ++ [1, 2, 3]),
        .ok "p".data⟩ (by decide)).2.2.2 missResponse rfl rfl rfl).2.1
    ((⟨[171], [16], 3, GoTime.unix 7⟩ : EntryMeta).writeBytes ++ [1, 2, 3])
    ⟨[171], [16], 3, GoTime.unix 7⟩ [1, 2, 3] "p".data rfl (by rfl) rfl rfl

/-- Result of DecodeCacheEntityKey: a decoded ActionID, a returned error, or
a Go runtime panic (crash). -/
inductive DecodeResult where
  | ok (actionID : List Nat)
  | err
  | crash
deriving DecidableEq

/-- Value of one hex digit, models the per-byte table of hex.DecodeString,
which accepts both lowercase and uppercase digits. -/
def hexDigitVal (c : Char) : Option Nat :=
  if '0' ≤ c ∧ c ≤ '9' then some (c.toNat - '0'.toNat)
  else if 'a' ≤ c ∧ c ≤ 'f' then some (c.toNat - 'a'.toNat + 10)
  else if 'A' ≤ c ∧ c ≤ 'F' then some (c.toNat - 'A'.toNat + 10)
  else none

/-- Models hex.DecodeString: consume pairs of hex digits; an odd length or
an invalid digit is an error. -/
def hexDecode : List Char → Option (List Nat)
  | [] => some []
  | [_] => none
  | c1 :: c2 :: rest =>
    match hexDigitVal c1, hexDigitVal c2, hexDecode rest with
    | some h, some l, some bs => some ((16 * h + l) :: bs)
    | _, _, _ => none

/-- Models CacheEntityKey from key.go: b, slash, the first ActionID byte in
two hex digits, slash, the full ActionID in hex. The Go code indexes byte 0
of the slice and panics on an empty one; headD 0 stands in for the index
and decodeCacheEntityKey accounts for the panicking call separately. -/
def cacheEntityKey (actionID : List Nat) : List Char :=
  'b' :: '/' :: hexByte (actionID.headD 0) ++ '/' :: hexBytes actionID

/-- Models CacheEntityKeyspace: the first hex digit of the first ActionID
byte. -/
def cacheEntityKeyspace (actionID : List Nat) : Char :=
  hexDigitChar (actionID.headD 0 / 16 % 16)

/-- Models DecodeCacheEntityKey from key.go. The shape check mirrors the Go
short-circuit index checks; then the remainder after position 5 is
hex-decoded, and the decoded bytes are re-encoded and compared with the
key. When the remainder is empty, hex.DecodeString succeeds with an empty
slice and the re-encoding call CacheEntityKey indexes element 0 of it: a
runtime panic, modeled as crash. -/
def decodeCacheEntityKey (key : List Char) : DecodeResult :=
  if key.length < 5 ∨ key[0]? ≠ some 'b' ∨ key[1]? ≠ some '/' ∨ key[4]? ≠ some '/'
  then .err
  else
    match hexDecode (key.drop 5) with
    | none => .err
    | some [] => .crash
    | some bs => if cacheEntityKey bs = key then .ok bs else .err

/-- One object returned by the bucket listing iterator. -/
structure ListedObj where
  Key : List Char
  Size : Int
  IsDir : Bool
deriving DecidableEq

/-- One planned compaction item from step1FindBlobsToCompact. -/
structure CompactItem where
  ActionID : List Nat
  ObjectKey : List Char
  ObjectSize : Int
deriving DecidableEq

def CompactionSmallBlobSize : Int := 1048576

def CompactionAtLeastAddFiles : Nat := 10

/-- Models the listing loop of step1FindBlobsToCompact: skip directory
results, skip objects at or above the small-blob limit, skip keys whose
decode reports an error with a warning, and abort the whole job when the
decode panics (the Go process would crash). -/
def compactPlannedList : List ListedObj → Except Unit (List CompactItem)
  | [] => .ok []
  | obj :: rest =>
    if obj.IsDir = true then compactPlannedList rest
    else if CompactionSmallBlobSize ≤ obj.Size then compactPlannedList rest
    else
      match decodeCacheEntityKey obj.Key with
      | .crash => .error ()
      | .err => compactPlannedList rest
      | .ok actionID =>
        match compactPlannedList rest with
        | .error e => .error e
        | .ok items => .ok (⟨actionID, obj.Key, obj.Size⟩ :: items)

/-- Outcome fields of step1FindBlobsToCompact relevant to the threshold
decision. -/
structure Step1Result where
  needCompact : Bool
  planned : List CompactItem
  nNewlyAddedFiles : Nat
  nNewlyRemovedFiles : Nat
deriving DecidableEq

/-- Models step1FindBlobsToCompact after the listing: an empty planned list
means no compaction; otherwise, against a current bundle reader the added
count is the number of planned items whose archive entry name is absent
from the bundle and the removed count the number of bundle names absent
from the listing, while with no bundle every planned item counts as added;
compaction is needed when the added count reaches the threshold. The
archive entry name of an item is its ActionID in hex, as in
CacheEntityNameInArchive. -/
def compactStep1 (listing : List ListedObj) (ar : Option (List (List Char))) :
    Except Unit Step1Result :=
  match compactPlannedList listing with
  | .error e => .error e
  | .ok planned =>
    if planned = [] then .ok ⟨false, planned, 0, 0⟩
    else
      match ar with
      | some names =>
        let added := (planned.filter
          (fun it => !(names.contains (hexBytes it.ActionID)))).length
        let removed := (names.filter
          (fun n => !((planned.map (fun it => hexBytes it.ActionID)).contains n))).length
        .ok ⟨decide (CompactionAtLeastAddFiles ≤ added), planned, added, removed⟩
      | none =>
        .ok ⟨decide (CompactionAtLeastAddFiles ≤ planned.length), planned, planned.length, 0⟩

inductive CompactOutcome where
  | failed
  | skipped
  | wroteArchive
deriving DecidableEq

/-- Models CompactionJob.work at the step level: sync is best-effort and
ignored, a listing abort fails the job, a negative threshold decision marks
the job skipped with no new bundle, and otherwise the build of the new
bundle file (step2) and its ingest (step3) run, whose IO outcomes come in
as environment flags. -/
def compactionWork (listing : List ListedObj) (ar : Option (List (List Char)))
    (buildOk ingestOk : Bool) : CompactOutcome :=
  match compactStep1 listing ar with
  | .error _ => .failed
  | .ok r =>
    if r.needCompact = false then .skipped
    else if buildOk = false then .failed
    else if ingestOk = false then .failed
    else .wroteArchive

/-- C5. Compaction threshold behavior, for any listing whose planned items
are as computed by the listing loop: with a current bundle and fewer than
10 planned items missing from it the job is marked skipped and writes no
bundle; with no bundle every planned item counts as added; with 10 or more
added items (and the build and ingest steps succeeding) a new bundle is
written and ingested, both with and without a preexisting bundle; and with
a bundle already containing every planned item the job writes nothing. -/
theorem compaction_threshold_c5 (listing : List ListedObj) (names : List (List Char))
    (planned : List CompactItem) (buildOk ingestOk : Bool)
    (hp : compactPlannedList listing = .ok planned) :
    ((planned.filter (fun it => !(names.contains (hexBytes it.ActionID)))).length
        < CompactionAtLeastAddFiles →
      compactionWork listing (some names) buildOk ingestOk = .skipped) ∧
    (∀ r, compactStep1 listing none = .ok r → r.nNewlyAddedFiles = planned.length) ∧
    (CompactionAtLeastAddFiles ≤
        (planned.filter (fun it => !(names.contains (hexBytes it.ActionID)))).length →
      compactionWork listing (some names) true true = .wroteArchive) ∧
    (planned ≠ [] → CompactionAtLeastAddFiles ≤ planned.length →
      compactionWork listing none true true = .wroteArchive) ∧
    ((∀ it ∈ planned, names.contains (hexBytes it.ActionID) = true) →
      compactionWork listing (some names) buildOk ingestOk = .skipped) := by
  have hsomeStep : planned ≠ [] → compactStep1 listing (some names) =
      .ok ⟨decide (CompactionAtLeastAddFiles ≤
            (planned.filter (fun it => !(names.contains (hexBytes it.ActionID)))).length),
          planned,
          (planned.filter (fun it => !(names.contains (hexBytes it.ActionID)))).length,
          (names.filter (fun n =>
            !((planned.map (fun it => hexBytes it.ActionID)).contains n))).length⟩ := by
    intro hnil
    simp only [compactStep1, hp]
    rw [if_neg hnil]
  have hnoneStep : planned ≠ [] → compactStep1 listing none =
      .ok ⟨decide (CompactionAtLeastAddFiles ≤ planned.length), planned,
        planned.length, 0⟩ := by
    intro hnil
    simp only [compactStep1, hp]
    rw [if_neg hnil]
  have hnilStep : planned = [] → ∀ a, compactStep1 listing a = .ok ⟨false, planned, 0, 0⟩ := by
    intro hnil a
    simp only [compactStep1, hp]
    rw [if_pos hnil]
  have hskip : (planned.filter (fun it => !(names.contains (hexBytes it.ActionID)))).length
      < CompactionAtLeastAddFiles →
      compactionWork listing (some names) buildOk ingestOk = .skipped := by
    intro hlt
    by_cases hnil : planned = []
    · unfold compactionWork
      rw [hnilStep hnil]
      rfl
    · unfold compactionWork
      rw [hsomeStep hnil, decide_eq_false (Nat.not_le.mpr hlt)]
      rfl
  refine ⟨hskip, ?_, ?_, ?_, ?_⟩
  · intro r hr
    by_cases hnil : planned = []
    · rw [hnilStep hnil] at hr
      cases hr
      simp [hnil]
    · rw [hnoneStep hnil] at hr
      cases hr
      rfl
  · intro hge
    have hnil : planned ≠ [] := by
      intro h
      rw [h] at hge
      simp [CompactionAtLeastAddFiles] at hge
    unfold compactionWork
    rw [hsomeStep hnil, decide_eq_true hge]
    rfl
  · intro hnil hge
    unfold compactionWork
    rw [hnoneStep hnil, decide_eq_true hge]
    rfl
  · intro hall
    have hfil : planned.filter (fun it => !(names.contains (hexBytes it.ActionID))) = [] := by
      rw [List.filter_eq_nil_iff]
      intro it hit
      simpa using hall it hit
    apply hskip
    rw [hfil]
    simp [CompactionAtLeastAddFiles]

/-- C5 witness: a concrete listing of one small object already contained in
the bundle, where compaction is skipped, and the added count with no bundle
equals the planned count. -/
theorem compaction_threshold_c5_witness :
    compactionWork [⟨"b/ab/ab".data, 3, false⟩] (some [['a', 'b']]) true true
        = .skipped ∧
      ∀ r, compactStep1 [⟨"b/ab/ab".data, 3, false⟩] none = .ok r →
        r.nNewlyAddedFiles = 1 := by
  have h := compaction_threshold_c5 [⟨"b/ab/ab".data, 3, false⟩] [['a', 'b']]
    [⟨[171], "b/ab/ab".data, 3⟩] true true (by rfl)
  exact ⟨h.1 (by decide), fun r hr => h.2.1 r hr⟩

/-- C9 (code bug). Parsing a listed object key back to an ActionID is not
total: the well-formed-looking key b/ab/ with an empty hex remainder drives
DecodeCacheEntityKey into re-encoding an empty ActionID, which indexes its
first byte and panics, aborting the listing loop; an ordinary round-trip
key decodes fine. The spec requires a reported parse failure and a skip
instead. -/
theorem decode_key_crash_c9 :
    decodeCacheEntityKey ("b/ab/".data) = .crash ∧
    compactPlannedList [⟨"b/ab/".data, 3, false⟩] = .error () ∧
    decodeCacheEntityKey (cacheEntityKey [171, 205]) = .ok [171, 205] :=
  ⟨rfl, rfl, rfl⟩

/-- Contents served by one archive reader: the name-keyed entries, fixed
when the reader is opened. -/
abbrev BundleContents := List (List Char × EntryMeta)

/-- State of the ArLocalStore: a counter allocating reader identities, the
keyspace-to-current-reader map, the immutable contents attached to each
reader ever opened, and the identities of readers that have been closed.
The Go finalizer closes a reader only once no consumer references it, so it
is outside the store operations modeled here. -/
structure ArLocalStoreState where
  nextId : Nat
  readers : List (String × Nat)
  contents : List (Nat × BundleContents)
  closedIds : List Nat
deriving DecidableEq

/-- Store operations with the environment outcomes that drive them. For
loadLocal, none models an absent bundle file, some none a file that fails
to open as an archive, and some (some c) a valid file with entries c. For
put, none models a stream that does not validate as an archive and some c a
valid one. -/
inductive StoreOp where
  | loadLocal (k : String) (file : Option (Option BundleContents))
  | putOp (k : String) (stream : Option BundleContents)
  | getOp (k : String)
deriving DecidableEq

/-- Models ArLocalStore.set: open a fresh reader over the given contents
and install it as current for the keyspace. The previously installed reader
is NOT closed; the comment in the source defers closing to the finalizer
once the reader is unused. -/
def arSet (s : ArLocalStoreState) (k : String) (c : BundleContents) : ArLocalStoreState :=
  ⟨s.nextId + 1, (k, s.nextId) :: s.readers, (s.nextId, c) :: s.contents, s.closedIds⟩

/-- Models one ArLocalStore operation. LoadLocal with an absent or broken
file changes nothing; a valid file is installed via set. Put writes the
stream to a temp file, opens it as a reader to validate (failure removes
the temp file and changes nothing), renames it into place, which on the
assumed UNIX rename semantics invalidates no previously handed-out reader,
and installs the new reader via set. Get reads the current map. -/
def applyOp (s : ArLocalStoreState) : StoreOp → ArLocalStoreState
  | .loadLocal k file =>
    match file with
    | none => s
    | some none => s
    | some (some c) => arSet s k c
  | .putOp k stream =>
    match stream with
    | none => s
    | some c => arSet s k c
  | .getOp _ => s

def applyOps (s : ArLocalStoreState) : List StoreOp → ArLocalStoreState
  | [] => s
  | op :: rest => applyOps (applyOp s op) rest

/-- Models ArLocalStore.Get: the current reader for the keyspace, if any. -/
def arGet (s : ArLocalStoreState) (k : String) : Option Nat :=
  match s.readers.find? (fun e => e.1 = k) with
  | some e => some e.2
  | none => none

/-- The entries a reader serves, fixed at its creation. -/
def readerContents (s : ArLocalStoreState) (id : Nat) : Option BundleContents :=
  match s.contents.find? (fun e => e.1 = id) with
  | some e => some e.2
  | none => none

/-- Well-formedness: every reader identity in use was allocated below the
counter. -/
def arWF (s : ArLocalStoreState) : Prop :=
  (∀ e ∈ s.readers, e.2 < s.nextId) ∧ (∀ e ∈ s.contents, e.1 < s.nextId)

theorem arWF_applyOp (s : ArLocalStoreState) (op : StoreOp) (h : arWF s) :
    arWF (applyOp s op) ∧ s.nextId ≤ (applyOp s op).nextId ∧
      (applyOp s op).closedIds = s.closedIds ∧
      (∀ id, id < s.nextId → readerContents (applyOp s op) id = readerContents s id) := by
  obtain ⟨h1, h2⟩ := h
  have hset : ∀ k c, arWF (arSet s k c) ∧ s.nextId ≤ (arSet s k c).nextId ∧
      (arSet s k c).closedIds = s.closedIds ∧
      (∀ id, id < s.nextId → readerContents (arSet s k c) id = readerContents s id) := by
    intro k c
    refine ⟨⟨?_, ?_⟩, by simp [arSet], rfl, ?_⟩
    · intro e he
      rcases List.mem_cons.mp he with rfl | hmem
      · simp [arSet]
      · exact Nat.lt_succ_of_lt (h1 e hmem)
    · intro e he
      rcases List.mem_cons.mp he with rfl | hmem
      · simp [arSet]
      · exact Nat.lt_succ_of_lt (h2 e hmem)
    · intro id hid
      have hne : s.nextId ≠ id := by omega
      simp [readerContents, arSet, List.find?_cons, hne]
  cases op with
  | loadLocal k file =>
    match file with
    | none => exact ⟨⟨h1, h2⟩, le_refl _, rfl, fun id _ => rfl⟩
    | some none => exact ⟨⟨h1, h2⟩, le_refl _, rfl, fun id _ => rfl⟩
    | some (some c) => exact hset k c
  | putOp k stream =>
    match stream with
    | none => exact ⟨⟨h1, h2⟩, le_refl _, rfl, fun id _ => rfl⟩
    | some c => exact hset k c
  | getOp k => exact ⟨⟨h1, h2⟩, le_refl _, rfl, fun id _ => rfl⟩

theorem arWF_applyOps (s : ArLocalStoreState) (ops : List StoreOp) (h : arWF s) :
    arWF (applyOps s ops) ∧ s.nextId ≤ (applyOps s ops).nextId ∧
      (applyOps s ops).closedIds = s.closedIds ∧
      (∀ id, id < s.nextId → readerContents (applyOps s ops) id = readerContents s id) := by
  induction ops generalizing s with
  | nil => exact ⟨h, le_refl _, rfl, fun id _ => rfl⟩
  | cons op rest ih =>
    simp only [applyOps]
    obtain ⟨hwf, hle, hcl, hrc⟩ := arWF_applyOp s op h
    obtain ⟨hwf2, hle2, hcl2, hrc2⟩ := ih (applyOp s op) hwf
    refine ⟨hwf2, le_trans hle hle2, by rw [hcl2, hcl], ?_⟩
    intro id hid
    rw [hrc2 id (lt_of_lt_of_le hid hle), hrc id hid]

/-- C7. Reader stability under hot swap: starting from a well-formed store
state with no closed reader, once get has handed out the reader currently
installed for keyspace k, no later sequence of store operations, including
puts of new bundles for k, ever closes that reader, and it continues to
serve exactly the entries it was opened over. -/
theorem arlocalstore_reader_stable_c7 (s : ArLocalStoreState) (ops : List StoreOp)
    (k : String) (id : Nat)
    (hwf : arWF s) (hclosed : s.closedIds = []) (hget : arGet s k = some id) :
    id ∉ (applyOps s ops).closedIds ∧
      readerContents (applyOps s ops) id = readerContents s id := by
  have hid : id < s.nextId := by
    unfold arGet at hget
    cases hfind : s.readers.find? (fun e => e.1 = k) with
    | none => rw [hfind] at hget; cases hget
    | some e =>
      rw [hfind] at hget
      cases hget
      exact hwf.1 e (List.mem_of_find?_eq_some hfind)
  obtain ⟨_, _, hcl, hrc⟩ := arWF_applyOps s ops hwf
  constructor
  · rw [hcl, hclosed]
    exact List.not_mem_nil id
  · exact hrc id hid

/-- C7 witness: a concrete store holding one reader for keyspace 0; after a
put installs a new bundle for the same keyspace, the old reader is not
closed and still serves its original entries. -/
theorem arlocalstore_reader_stable_c7_witness :
    (0 : Nat) ∉ (applyOps ⟨1, [("0", 0)], [(0, [(['a'], ⟨[10], [11], 0, GoTime.zero⟩)])], []⟩
        [.putOp "0" (some [])]).closedIds ∧
      readerContents (applyOps ⟨1, [("0", 0)], [(0, [(['a'], ⟨[10], [11], 0, GoTime.zero⟩)])], []⟩
          [.putOp "0" (some [])]) 0
        = readerContents ⟨1, [("0", 0)], [(0, [(['a'], ⟨[10], [11], 0, GoTime.zero⟩)])], []⟩ 0 :=
  arlocalstore_reader_stable_c7 ⟨1, [("0", 0)], [(0, [(['a'], ⟨[10], [11], 0, GoTime.zero⟩)])], []⟩
    [.putOp "0" (some [])] "0" 0 ⟨by decide, by decide⟩ rfl rfl

/-- One line of the input stream, as the byte payload ReadLine returns
without its newline. Lines are modeled below the buffer size, where
ReadLine reports complete lines. -/
abbrev Line := List Nat

inductive ReadErr where
  | eof
  | noProgress
deriving DecidableEq

/-- Models LineChunkedReader.NextValidLine with its attempts counter: each
loop iteration first increments attempts and gives up with ErrNoProgress
past 10 attempts, then reads a line; an empty line with no error is
skipped, anything else is returned. Reading an exhausted stream reports
EOF. -/
def nextValidLineAux (attempts : Nat) : List Line → Except ReadErr (Line × List Line)
  | [] => if 10 < attempts + 1 then .error .noProgress else .error .eof
  | l :: rest =>
    if 10 < attempts + 1 then .error .noProgress
    else if l = [] then nextValidLineAux (attempts + 1) rest
    else .ok (l, rest)

def nextValidLine (ls : List Line) : Except ReadErr (Line × List Line) :=
  nextValidLineAux 0 ls

theorem nextValidLineAux_consumes (ls : List Line) (a : Nat) (l : Line) (rest : List Line)
    (h : nextValidLineAux a ls = .ok (l, rest)) : rest.length < ls.length := by
  induction ls generalizing a with
  | nil =>
    unfold nextValidLineAux at h
    split at h <;> cases h
  | cons l0 rest0 ih =>
    unfold nextValidLineAux at h
    split at h
    · cases h
    · split at h
      · exact Nat.lt_trans (ih (a + 1) h) (Nat.lt_succ_self _)
      · cases h
        exact Nat.lt_succ_self _

/-- Models the record-consumption skeleton of CacheProg.readLoop: read
valid lines until EOF (clean termination) or a read error (engine
failure), collecting the records in order. -/
def readRecords (ls : List Line) : Except ReadErr (List Line) :=
  match h : nextValidLine ls with
  | .error .eof => .ok []
  | .error .noProgress => .error .noProgress
  | .ok (l, rest) =>
    have : rest.length < ls.length := nextValidLineAux_consumes ls 0 l rest h
    match readRecords rest with
    | .ok rs => .ok (l :: rs)
    | .error e => .error e
termination_by ls.length

theorem readRecords_eof (ls : List Line) (h : nextValidLine ls = .error .eof) :
    readRecords ls = .ok [] := by
  unfold readRecords
  split
  · rfl
  · rename_i heq
    rw [h] at heq
    cases heq
  · rename_i l rest heq
    rw [h] at heq
    cases heq

theorem readRecords_noProgress (ls : List Line) (h : nextValidLine ls = .error .noProgress) :
    readRecords ls = .error .noProgress := by
  unfold readRecords
  split
  · rename_i heq
    rw [h] at heq
    cases heq
  · rfl
  · rename_i l rest heq
    rw [h] at heq
    cases heq

theorem readRecords_step (ls : List Line) (l : Line) (rest : List Line)
    (h : nextValidLine ls = .ok (l, rest)) :
    readRecords ls = match readRecords rest with
      | .ok rs => .ok (l :: rs)
      | .error e => .error e := by
  conv_lhs => unfold readRecords
  split
  · rename_i heq
    rw [h] at heq
    cases heq
  · rename_i heq
    rw [h] at heq
    cases heq
  · rename_i l2 rest2 heq
    rw [h] at heq
    cases heq
    rfl

theorem nextValidLineAux_skip (g : Nat) (a : Nat) (r : Line) (rest : List Line)
    (hg : a + g ≤ 9) (hr : r ≠ []) :
    nextValidLineAux a (List.replicate g [] ++ r :: rest) = .ok (r, rest) := by
  induction g generalizing a with
  | zero =>
    unfold nextValidLineAux
    simp only [List.replicate, List.nil_append]
    rw [if_neg (by omega), if_neg hr]
  | succ n ih =>
    have hrep : List.replicate (n + 1) ([] : Line) ++ r :: rest
        = [] :: (List.replicate n [] ++ r :: rest) := by
      simp [List.replicate_succ]
    rw [hrep]
    unfold nextValidLineAux
    rw [if_neg (by omega), if_pos rfl]
    exact ih (a + 1) (by omega)

theorem nextValidLineAux_allEmpty (g : Nat) (a : Nat) (hg : a + g ≤ 9) :
    nextValidLineAux a (List.replicate g ([] : Line)) = .error .eof := by
  induction g generalizing a with
  | zero =>
    unfold nextValidLineAux
    simp only [List.replicate]
    rw [if_neg (by omega)]
  | succ n ih =>
    rw [List.replicate_succ]
    unfold nextValidLineAux
    rw [if_neg (by omega), if_pos rfl]
    exact ih (a + 1) (by omega)

/-- Records interleaved with runs of empty lines: one run before each
record and one trailing run, as driven by the gap list. -/
def withEmptyGaps : List Nat → List Line → List Line
  | [], rs => rs
  | g :: _, [] => List.replicate g []
  | g :: gs, r :: rs => List.replicate g [] ++ r :: withEmptyGaps gs rs

theorem readRecords_withEmptyGaps (records : List Line) (gaps : List Nat)
    (hg : ∀ g ∈ gaps, g ≤ 9) (hr : ∀ r ∈ records, r ≠ []) :
    readRecords (withEmptyGaps gaps records) = .ok records := by
  induction records generalizing gaps with
  | nil =>
    cases gaps with
    | nil =>
      exact readRecords_eof [] rfl
    | cons g gs =>
      apply readRecords_eof
      exact nextValidLineAux_allEmpty g 0 (by have := hg g (by simp); omega)
  | cons r rs ih =>
    have hrne : r ≠ [] := hr r (by simp)
    have hrs : ∀ x ∈ rs, x ≠ [] := fun x hx => hr x (by simp [hx])
    cases gaps with
    | nil =>
      have hstep : nextValidLine (withEmptyGaps [] (r :: rs)) = .ok (r, withEmptyGaps [] rs) := by
        show nextValidLineAux 0 (r :: rs) = .ok (r, rs)
        unfold nextValidLineAux
        rw [if_neg (by omega), if_neg hrne]
      rw [readRecords_step _ _ _ hstep, ih [] (by simp) hrs]
    | cons g gs =>
      have hstep : nextValidLine (withEmptyGaps (g :: gs) (r :: rs))
          = .ok (r, withEmptyGaps gs rs) := by
        show nextValidLineAux 0 (List.replicate g [] ++ r :: withEmptyGaps gs rs)
            = .ok (r, withEmptyGaps gs rs)
        exact nextValidLineAux_skip g 0 r _ (by have := hg g (by simp); omega) hrne
      rw [readRecords_step _ _ _ hstep,
        ih gs (fun x hx => hg x (by simp [hx])) hrs]

/-- C10 (amended). Runs of UP TO NINE consecutive empty lines between
records are ignored: the engine reads exactly the records, in order, as it
would with the empty lines absent. The frozen claim allows any number of
consecutive empty lines, but NextValidLine gives up with ErrNoProgress
after ten attempts, so a run of ten or more empty lines terminates the
engine with an error (see the counterexample). -/
theorem empty_lines_skipped_c10 (gaps : List Nat) (records : List Line)
    (hg : ∀ g ∈ gaps, g ≤ 9) (hr : ∀ r ∈ records, r ≠ []) :
    readRecords (withEmptyGaps gaps records) = .ok records ∧
      readRecords records = .ok records := by
  refine ⟨readRecords_withEmptyGaps records gaps hg hr, ?_⟩
  have h0 := readRecords_withEmptyGaps records [] (by simp) hr
  simpa [withEmptyGaps] using h0

/-- C10 counterexample. Ten consecutive empty lines before a record abort
the engine with ErrNoProgress, while the same record stream without the
empty lines is processed: the frozen claim, which allows any number of
empty lines, is false at this input. -/
theorem empty_lines_skipped_c10_counterexample :
    readRecords (List.replicate 10 [] ++ [[66]]) = .error .noProgress ∧
      readRecords [[66]] = .ok [[66]] := by
  constructor
  · exact readRecords_noProgress _ (by rfl)
  · have hstep : nextValidLine [[66]] = .ok ([66], []) := rfl
    rw [readRecords_step _ _ _ hstep, readRecords_eof [] rfl]

/-- C10 witness: gaps of two and three empty lines around two records are
ignored. -/
theorem empty_lines_skipped_c10_witness :
    readRecords (withEmptyGaps [2, 3] [[65], [66]]) = .ok [[65], [66]] ∧
      readRecords [[65], [66]] = .ok [[65], [66]] :=
  empty_lines_skipped_c10 [2, 3] [[65], [66]] (by decide) (by decide)

end GsCache
